import Mathlib

/-!
Verification model of the core of the UTS admin-dashboard repository
(`src/app.py`): the namespaced TTL cache `PlatformCacheManager` and the
filter-to-SQL predicate compiler `DatabaseManager._build_where_clause` /
`DatabaseManager._build_condition`, together with the cache invalidation
performed by `DatabaseManager.connect`.

Python values stored in the cache or appearing in filter conditions are
modelled by `Value`; timestamps (`time.time()`) by `Nat`; Python dicts by
association lists in insertion order (Python dicts preserve insertion
order, and overwriting a key keeps its position).
-/

/-- Scalar Python values appearing in filters and cache entries.
`snone` models Python `None` (also standing for a missing value). -/
inductive Scalar where
  | snone
  | sstr (s : String)
  | sint (n : Int)
deriving DecidableEq, Repr

/-- A Python value: a scalar, a list of scalars, or a string-keyed dict of
scalars (enough structure for every value the modelled code inspects). -/
inductive Value where
  | scalar (s : Scalar)
  | list (vs : List Scalar)
  | dict (pairs : List (String × Scalar))
deriving DecidableEq, Repr

/-- `result is None` / `result is not None` discriminator. -/
def Value.isNone : Value → Bool
  | Value.scalar Scalar.snone => true
  | _ => false

/-- A cache entry as stored by `PlatformCacheManager.set`:
`{'data': value, 'timestamp': time.time()}`. -/
structure Entry where
  data : Value
  timestamp : Nat
deriving DecidableEq, Repr

/-- One namespace's cache dict, in insertion order. -/
abbrev Store := List (String × Entry)

/-! ### String helpers (kernel-evaluable stand-ins for Python `str` methods) -/

/-- Split a character list at commas; models Python `value.split(',')`. -/
def splitCommaAux : List Char → List Char → List (List Char)
  | [], acc => [acc.reverse]
  | c :: rest, acc =>
    if c = ',' then acc.reverse :: splitCommaAux rest [] else splitCommaAux rest (c :: acc)

/-- Python `s.split(',')`. -/
def pySplitComma (s : String) : List String :=
  (splitCommaAux s.toList []).map List.asString

/-- Python `s.strip()` (whitespace as recognised by `Char.isWhitespace`). -/
def pyStrip (s : String) : String :=
  ((((s.toList.dropWhile Char.isWhitespace).reverse).dropWhile Char.isWhitespace).reverse).asString

/-- Whether `sub` occurs as a contiguous substring of `hay`. -/
def listContainsSub (sub : List Char) : List Char → Bool
  | [] => sub.isEmpty
  | c :: rest => sub.isPrefixOf (c :: rest) || listContainsSub sub rest

/-- Whether string `sub` occurs inside string `hay`. -/
def strContains (hay sub : String) : Bool :=
  listContainsSub sub.toList hay.toList

/-! ### Dict (association list) primitives -/

/-- Python `d.get(key)` on a dict in insertion order. -/
def lookupStore : Store → String → Option Entry
  | [], _ => Option.none
  | (k, e) :: rest, key => if k = key then some e else lookupStore rest key

/-- Python `del d[key]`: remove the (unique) binding of `key`, keeping order.
On the association list this removes the first occurrence. -/
def eraseKey : Store → String → Store
  | [], _ => []
  | (k, e) :: rest, key => if k = key then rest else (k, e) :: eraseKey rest key

/-- Python `d[key] = e`: overwrite in place if present (keeping the key's
position, as Python dicts do), otherwise append at the end. -/
def insertEntry : Store → String → Entry → Store
  | [], key, e => [(key, e)]
  | (k, e₀) :: rest, key, e =>
    if k = key then (k, e) :: rest else (k, e₀) :: insertEntry rest key e

/-- Running minimum for `min(keys, key=timestamp)`: Python's `min` keeps the
current best unless a strictly smaller element appears, so the first minimal
entry in iteration order wins. -/
def oldestAux : String × Entry → Store → String × Entry
  | best, [] => best
  | best, p :: rest => oldestAux (if p.2.timestamp < best.2.timestamp then p else best) rest

/-- `min(cache.keys(), key=lambda k: cache[k]['timestamp'])` together with its
entry; `none` on an empty dict (where Python's `min` would raise). -/
def oldest : Store → Option (String × Entry)
  | [] => Option.none
  | p :: rest => some (oldestAux p rest)

/-! ### PlatformCacheManager state -/

/-- The fixed namespaces created in `PlatformCacheManager.__init__`. -/
def knownNamespaces : List String :=
  ["database_queries", "api_responses", "table_metadata", "user_data",
   "configuration", "static_assets", "visualization_data", "file_uploads"]

/-- `self._ttl_settings` (seconds). Unknown namespaces are guarded before
this table is consulted; the default 0 is never used. -/
def ttlSettings : String → Nat
  | "database_queries" => 300
  | "api_responses" => 60
  | "table_metadata" => 600
  | "user_data" => 30
  | "configuration" => 1800
  | "static_assets" => 3600
  | "visualization_data" => 300
  | "file_uploads" => 1800
  | _ => 0

/-- `self._max_sizes`. -/
def maxSizes : String → Nat
  | "database_queries" => 1000
  | "api_responses" => 500
  | "table_metadata" => 100
  | "user_data" => 200
  | "configuration" => 50
  | "static_assets" => 200
  | "visualization_data" => 300
  | "file_uploads" => 100
  | _ => 0

/-- The mutable state of the global `cache_manager`: the per-namespace cache
dicts and the four per-namespace counters. -/
structure CacheState where
  caches : String → Store
  hits : String → Nat
  misses : String → Nat
  evictions : String → Nat
  totalRequests : String → Nat

/-- Point update of a namespace-indexed table. -/
def updF {α : Type} (f : String → α) (ns : String) (v : α) : String → α :=
  fun n => if n = ns then v else f n

/-- The state right after `PlatformCacheManager.__init__`. -/
def initState : CacheState :=
  { caches := fun _ => [], hits := fun _ => 0, misses := fun _ => 0,
    evictions := fun _ => 0, totalRequests := fun _ => 0 }

/-- `PlatformCacheManager.get(cache_name, key, default=None)` with the clock
passed explicitly: returns the Python return value and the updated state. -/
def PlatformCacheManager.get (st : CacheState) (ns key : String) (default : Value)
    (now : Nat) : Value × CacheState :=
  if ns ∈ knownNamespaces then
    let st₁ := { st with totalRequests := updF st.totalRequests ns (st.totalRequests ns + 1) }
    match lookupStore (st₁.caches ns) key with
    | some e =>
      if now - e.timestamp < ttlSettings ns then
        (e.data, { st₁ with hits := updF st₁.hits ns (st₁.hits ns + 1) })
      else
        let st₂ := { st₁ with
          caches := updF st₁.caches ns (eraseKey (st₁.caches ns) key),
          evictions := updF st₁.evictions ns (st₁.evictions ns + 1) }
        (default, { st₂ with misses := updF st₂.misses ns (st₂.misses ns + 1) })
    | Option.none =>
      (default, { st₁ with misses := updF st₁.misses ns (st₁.misses ns + 1) })
  else (default, st)

/-- `PlatformCacheManager.set(cache_name, key, value)`. If the namespace is at
(or beyond) its size limit, the entry with the smallest timestamp is removed
and the eviction counter bumped, then the new entry is stored with the current
time. In Python, `min` over an empty dict would raise; that branch is
unreachable because every configured max size is positive. -/
def PlatformCacheManager.set (st : CacheState) (ns key : String) (v : Value)
    (now : Nat) : Bool × CacheState :=
  if ns ∈ knownNamespaces then
    let evicted :=
      if maxSizes ns ≤ (st.caches ns).length then
        match oldest (st.caches ns) with
        | some (k₀, _) => (eraseKey (st.caches ns) k₀, st.evictions ns + 1)
        | Option.none => (st.caches ns, st.evictions ns)
      else (st.caches ns, st.evictions ns)
    (true, { st with
      caches := updF st.caches ns (insertEntry evicted.1 key ⟨v, now⟩),
      evictions := updF st.evictions ns evicted.2 })
  else (false, st)

/-- `PlatformCacheManager.delete(cache_name, key)`. -/
def PlatformCacheManager.delete (st : CacheState) (ns key : String) : Bool × CacheState :=
  if ns ∈ knownNamespaces then
    if (lookupStore (st.caches ns) key).isSome then
      (true, { st with caches := updF st.caches ns (eraseKey (st.caches ns) key) })
    else (false, st)
  else (false, st)

/-- `PlatformCacheManager.clear(cache_name=None)`. -/
def PlatformCacheManager.clear (st : CacheState) : Option String → CacheState
  | some ns =>
    if ns ∈ knownNamespaces then { st with caches := updF st.caches ns [] } else st
  | Option.none =>
    { st with caches := fun n => if n ∈ knownNamespaces then [] else st.caches n }

/-- A regex pattern argument as seen by `invalidate_pattern`: `re.compile`
either yields a matcher (`valid f`, where `f key` is the truthiness of
`pattern_re.match(key)`) or raises `re.error` (`invalid`). -/
inductive Pattern where
  | valid (matcher : String → Bool)
  | invalid

/-- `PlatformCacheManager.invalidate_pattern(cache_name, pattern)`. An unknown
namespace returns 0 before the pattern is compiled; an invalid pattern raises
(`Except.error`); otherwise every matching key is deleted in turn and the
count of deletions (one per collected key) is returned. -/
def PlatformCacheManager.invalidate_pattern (st : CacheState) (ns : String)
    (p : Pattern) : Except Unit (Nat × CacheState) :=
  if ns ∈ knownNamespaces then
    match p with
    | Pattern.invalid => Except.error ()
    | Pattern.valid f =>
      let keysToRemove := ((st.caches ns).filter (fun q => f q.1)).map Prod.fst
      Except.ok (keysToRemove.length,
        { st with caches := updF st.caches ns (keysToRemove.foldl eraseKey (st.caches ns)) })
  else Except.ok (0, st)

/-- One namespace's pass of `cleanup_expired`: collect the keys whose age
reached the namespace TTL, delete each, count them, bump evictions. -/
def cleanupStep (now : Nat) (acc : Nat × CacheState) (ns : String) : Nat × CacheState :=
  let expired := (((acc.2.caches ns).filter
    (fun q => ttlSettings ns ≤ now - q.2.timestamp)).map Prod.fst)
  (acc.1 + expired.length,
   { acc.2 with
     caches := updF acc.2.caches ns (expired.foldl eraseKey (acc.2.caches ns)),
     evictions := updF acc.2.evictions ns (acc.2.evictions ns + expired.length) })

/-- `PlatformCacheManager.cleanup_expired()`: sweep every namespace, removing
entries whose age reached the namespace TTL, bumping evictions per removal. -/
def PlatformCacheManager.cleanup_expired (st : CacheState) (now : Nat) : Nat × CacheState :=
  knownNamespaces.foldl (cleanupStep now) (0, st)

/-- The body of the `cached` decorator's `wrapper`: look the key up with
default `None`; on a non-`None` result return it without calling the wrapped
function; otherwise call the function (its result for this call is `fres`),
store it, and return it. The third component records whether the wrapped
function was executed. -/
def cached (st : CacheState) (ns key : String) (fres : Value) (now : Nat) :
    Value × CacheState × Bool :=
  let r := PlatformCacheManager.get st ns key (Value.scalar Scalar.snone) now
  if r.1.isNone then
    let s := PlatformCacheManager.set r.2 ns key fres now
    (fres, s.2, true)
  else (r.1, r.2, false)

/-! ### Operation sequences over the cache -/

/-- One externally invokable cache operation (clock passed explicitly). -/
inductive Op where
  | get (ns key : String) (default : Value) (now : Nat)
  | set (ns key : String) (v : Value) (now : Nat)
  | del (ns key : String)
  | clear (ns : Option String)
  | invalidate (ns : String) (p : Pattern)
  | cleanup (now : Nat)

/-- State effect of one operation. -/
def applyOp (st : CacheState) : Op → CacheState
  | Op.get ns key d now => (PlatformCacheManager.get st ns key d now).2
  | Op.set ns key v now => (PlatformCacheManager.set st ns key v now).2
  | Op.del ns key => (PlatformCacheManager.delete st ns key).2
  | Op.clear ns => PlatformCacheManager.clear st ns
  | Op.invalidate ns p =>
    match PlatformCacheManager.invalidate_pattern st ns p with
    | Except.ok r => r.2
    | Except.error _ => st
  | Op.cleanup now => (PlatformCacheManager.cleanup_expired st now).2

/-- Run a sequence of cache operations. -/
def runOps (st : CacheState) (ops : List Op) : CacheState :=
  ops.foldl applyOp st

/-! ### DatabaseManager: the filter-to-predicate compiler -/

/-- `psycopg2.sql.Identifier(field).as_string(conn)`: the field name double
quoted, with embedded double quotes doubled. -/
def quoteIdent (field : String) : String :=
  "\"" ++ String.join (field.toList.map
    (fun c => if c = '"' then "\"\"" else String.singleton c)) ++ "\""

/-- Python `str` on a scalar. -/
def Scalar.pyStr : Scalar → String
  | Scalar.snone => "None"
  | Scalar.sstr s => s
  | Scalar.sint n => toString n

/-- Python `repr` on a scalar (quote-escaping inside strings not modelled;
no theorem depends on it). -/
def Scalar.pyRepr : Scalar → String
  | Scalar.sstr s => "\x27" ++ s ++ "\x27"
  | s => Scalar.pyStr s

/-- Python `str(value)`, as used by the f-string interpolations
`f'%{value}%'` etc. in `_build_condition`. -/
def pyStr : Value → String
  | Value.scalar s => Scalar.pyStr s
  | Value.list vs => "[" ++ String.intercalate ", " (vs.map Scalar.pyRepr) ++ "]"
  | Value.dict ps =>
    "\x7b" ++ String.intercalate ", "
      (ps.map (fun p => "\x27" ++ p.1 ++ "\x27: " ++ Scalar.pyRepr p.2)) ++ "\x7d"

/-- The `values` list built in the `in` / `not_in` branches:
a string is split at commas, each piece stripped, empty pieces dropped;
a list is used as is; any other value becomes a one-element list. -/
def splitInValues : Value → List Value
  | Value.scalar (Scalar.sstr s) =>
    (((pySplitComma s).map pyStrip).filter (fun t => t ≠ "")).map
      (fun t => Value.scalar (Scalar.sstr t))
  | Value.list vs => vs.map Value.scalar
  | v => [v]

/-- `DatabaseManager._build_condition(field, operation, value)`: the if/elif
ladder over the operation name, returning the SQL fragment (with `%s`
placeholders) and the parameter list. Unrecognised operations, an empty
`in`/`not_in` element list, and a malformed `between` value fall through to
`("", [])`. -/
def DatabaseManager.build_condition (field operation : String) (value : Value) :
    String × List Value :=
  let f := quoteIdent field
  if operation = "equals" then (f ++ " = %s", [value])
  else if operation = "not_equals" then (f ++ " != %s", [value])
  else if operation = "contains" then
    (f ++ "::text ILIKE %s", [Value.scalar (Scalar.sstr ("%" ++ pyStr value ++ "%"))])
  else if operation = "not_contains" then
    (f ++ "::text NOT ILIKE %s", [Value.scalar (Scalar.sstr ("%" ++ pyStr value ++ "%"))])
  else if operation = "starts_with" then
    (f ++ "::text ILIKE %s", [Value.scalar (Scalar.sstr (pyStr value ++ "%"))])
  else if operation = "ends_with" then
    (f ++ "::text ILIKE %s", [Value.scalar (Scalar.sstr ("%" ++ pyStr value))])
  else if operation = "greater_than" then (f ++ " > %s", [value])
  else if operation = "less_than" then (f ++ " < %s", [value])
  else if operation = "greater_equal" then (f ++ " >= %s", [value])
  else if operation = "less_equal" then (f ++ " <= %s", [value])
  else if operation = "is_null" then (f ++ " IS NULL", [])
  else if operation = "is_not_null" then (f ++ " IS NOT NULL", [])
  else if operation = "in" then
    let values := splitInValues value
    if values.isEmpty then ("", [])
    else
      (f ++ " IN (" ++ String.intercalate "," (List.replicate values.length "%s") ++ ")",
       values)
  else if operation = "not_in" then
    let values := splitInValues value
    if values.isEmpty then ("", [])
    else
      (f ++ " NOT IN (" ++ String.intercalate "," (List.replicate values.length "%s") ++ ")",
       values)
  else if operation = "between" then
    match value with
    | Value.dict ps =>
      match ps.lookup "min", ps.lookup "max" with
      | some lo, some hi =>
        (f ++ " BETWEEN %s AND %s", [Value.scalar lo, Value.scalar hi])
      | _, _ => ("", [])
    | _ => ("", [])
  else ("", [])

/-- The fixed operation names recognised by the if/elif ladder. -/
def knownOperations : List String :=
  ["equals", "not_equals", "contains", "not_contains", "starts_with", "ends_with",
   "greater_than", "less_than", "greater_equal", "less_equal", "is_null",
   "is_not_null", "in", "not_in", "between"]

/-- One condition dict from a filter group: either a dict with (possibly
missing) `field` / `operation` / `value` entries, or a non-dict element.
A missing or empty (falsy) string is modelled as `""`; a missing value as
`Value.scalar Scalar.snone` (Python `None`). -/
inductive Cond where
  | mk (field operation : String) (value : Value)
  | notDict

/-- One group dict: a `logic` entry (absent ↦ `none`, defaulted to `"AND"`)
and a list of conditions, or a non-dict element of the groups list. -/
inductive FilterGroup where
  | mk (logic : Option String) (conds : List Cond)
  | notDict

/-- A truthy dict filter spec; `_build_where_clause` receives
`Option FilterSpec`, with `none` standing for a falsy or non-dict argument. -/
structure FilterSpec where
  logic : Option String
  groups : List FilterGroup

/-- The per-condition body of the group loop: skip non-dicts, skip a falsy
`field` or `operation`, build the condition, and keep it only if the SQL
fragment is non-empty. -/
def compileCond : Cond → Option (String × List Value)
  | Cond.notDict => Option.none
  | Cond.mk f op v =>
    if f = "" ∨ op = "" then Option.none
    else
      let r := DatabaseManager.build_condition f op v
      if r.1 = "" then Option.none else some r

/-- The accumulation step shared by the two loops of `_build_where_clause`:
append a surviving fragment and extend the parameter list. -/
def appendCompiled {α β γ : Type} (g : α → Option (β × List γ))
    (acc : List β × List γ) (c : α) : List β × List γ :=
  match g c with
  | Option.none => acc
  | some (s, ps) => (acc.1 ++ [s], acc.2 ++ ps)

/-- The per-group part of `_build_where_clause`: fold the conditions,
collecting surviving fragments and extending the parameter list; if any
condition survived, join the fragments with the group's logic operator
(default `AND`) and parenthesise when more than one survived. `none` means
the group contributed no clause. -/
def buildGroup : FilterGroup → Option (String × List Value)
  | FilterGroup.notDict => Option.none
  | FilterGroup.mk logic conds =>
    let r := conds.foldl (appendCompiled compileCond) ([], [])
    if r.1.isEmpty then Option.none
    else
      let clause := String.intercalate (" " ++ logic.getD "AND" ++ " ") r.1
      some (if 1 < r.1.length then "(" ++ clause ++ ")" else clause, r.2)

/-- `DatabaseManager._build_where_clause(filters)`: fold the groups,
collecting each group clause and its parameters, then join the group clauses
with the top-level logic operator (default `AND`). A falsy / non-dict spec or
one producing no clause yields `("", [])`. -/
def DatabaseManager.build_where_clause : Option FilterSpec → String × List Value
  | Option.none => ("", [])
  | some spec =>
    let r := spec.groups.foldl (appendCompiled buildGroup) ([], [])
    if r.1.isEmpty then ("", [])
    else (String.intercalate (" " ++ spec.logic.getD "AND" ++ " ") r.1, r.2)

/-! ### Value shapes (for the non-interpolation hyperproperty) -/

/-- Whether a value is a dict with both `min` and `max` keys (the `between`
well-formedness test). -/
def hasMinMax : Value → Bool
  | Value.dict ps => (ps.lookup "min").isSome && (ps.lookup "max").isSome
  | _ => false

/-- Constructor tag of a value. -/
def kindOf : Value → Nat
  | Value.scalar Scalar.snone => 0
  | Value.scalar (Scalar.sstr _) => 1
  | Value.scalar (Scalar.sint _) => 2
  | Value.list _ => 3
  | Value.dict _ => 4

/-- The shape of a value: everything a compiled fragment may depend on —
the scalar kind, the number of `in`-list elements after splitting, and
`between` well-formedness. -/
structure VShape where
  kind : Nat
  splitCount : Nat
  minmax : Bool
deriving DecidableEq, Repr

/-- Shape of a value. -/
def shapeOf (v : Value) : VShape :=
  ⟨kindOf v, (splitInValues v).length, hasMinMax v⟩

/-- The fragment `_build_condition` produces, as a function of the field, the
operation, and only the *shape* of the value. -/
def fragSpec (field operation : String) (sh : VShape) : String :=
  let f := quoteIdent field
  if operation = "equals" then f ++ " = %s"
  else if operation = "not_equals" then f ++ " != %s"
  else if operation = "contains" then f ++ "::text ILIKE %s"
  else if operation = "not_contains" then f ++ "::text NOT ILIKE %s"
  else if operation = "starts_with" then f ++ "::text ILIKE %s"
  else if operation = "ends_with" then f ++ "::text ILIKE %s"
  else if operation = "greater_than" then f ++ " > %s"
  else if operation = "less_than" then f ++ " < %s"
  else if operation = "greater_equal" then f ++ " >= %s"
  else if operation = "less_equal" then f ++ " <= %s"
  else if operation = "is_null" then f ++ " IS NULL"
  else if operation = "is_not_null" then f ++ " IS NOT NULL"
  else if operation = "in" then
    if sh.splitCount = 0 then ""
    else f ++ " IN (" ++ String.intercalate "," (List.replicate sh.splitCount "%s") ++ ")"
  else if operation = "not_in" then
    if sh.splitCount = 0 then ""
    else f ++ " NOT IN (" ++ String.intercalate "," (List.replicate sh.splitCount "%s") ++ ")"
  else if operation = "between" then
    if sh.minmax then f ++ " BETWEEN %s AND %s" else ""
  else ""

/-! ### DatabaseManager.connect and its cache invalidation -/

/-- The namespaces invalidated by `DatabaseManager.connect`. -/
def connectTargets : List String := ["database_queries", "api_responses", "table_metadata"]

/-- The pattern `re.compile(".*:" + db)` used by `connect`, applied via
`re.match`: for a database name free of regex metacharacters it matches
exactly the keys containing `":" ++ db` as a substring. -/
def targetPattern (db : String) : Pattern :=
  Pattern.valid (fun key => strContains key (":" ++ db))

/-- The state effect of one `cache_manager.invalidate_pattern(...)` call in
`connect` (the pattern there always compiles, so the error branch is
unreachable; an escaping exception would abort `connect`). -/
def invalidateStep (p : Pattern) (s : CacheState) (ns : String) : CacheState :=
  match PlatformCacheManager.invalidate_pattern s ns p with
  | Except.ok r => r.2
  | Except.error _ => s

/-- `DatabaseManager.connect`, restricted to its observable effect on the
cache: `success` tells whether `psycopg2.connect` succeeded. On success the
three database-scoped namespaces are pattern-invalidated with the new
database name; on failure the exception is caught and nothing is touched. -/
def DatabaseManager.connect (st : CacheState) (newDb : String) (success : Bool) :
    Bool × CacheState :=
  if success then
    (true, connectTargets.foldl (invalidateStep (targetPattern newDb)) st)
  else (false, st)

/-! ### Lemmas about the dict primitives -/

theorem lookup_insertEntry_self (s : Store) (k : String) (e : Entry) :
    lookupStore (insertEntry s k e) k = some e := by
  induction s with
  | nil => simp [insertEntry, lookupStore]
  | cons p rest ih =>
    obtain ⟨k₁, e₁⟩ := p
    by_cases h : k₁ = k
    · simp [insertEntry, lookupStore, h]
    · simp [insertEntry, lookupStore, h, ih]

theorem lookup_insertEntry_ne (s : Store) (k k' : String) (e : Entry) (h : k' ≠ k) :
    lookupStore (insertEntry s k e) k' = lookupStore s k' := by
  induction s with
  | nil => simp [insertEntry, lookupStore, Ne.symm h]
  | cons p rest ih =>
    obtain ⟨k₁, e₁⟩ := p
    by_cases hp : k₁ = k
    · subst hp
      simp [insertEntry, lookupStore, Ne.symm h]
    · simp only [insertEntry, hp, if_false, lookupStore]
      by_cases hp' : k₁ = k'
      · simp [hp']
      · simp [hp', ih]

theorem length_insertEntry_le (s : Store) (k : String) (e : Entry) :
    (insertEntry s k e).length ≤ s.length + 1 := by
  induction s with
  | nil => simp [insertEntry]
  | cons p rest ih =>
    obtain ⟨k₁, e₁⟩ := p
    by_cases h : k₁ = k
    · simp [insertEntry, h]
    · simp only [insertEntry, h, if_false, List.length_cons]
      omega

theorem length_insertEntry_of_present (s : Store) (k : String) (e : Entry)
    (h : (lookupStore s k).isSome) : (insertEntry s k e).length = s.length := by
  induction s with
  | nil => simp [lookupStore] at h
  | cons p rest ih =>
    obtain ⟨k₁, e₁⟩ := p
    by_cases hp : k₁ = k
    · simp [insertEntry, hp]
    · simp only [lookupStore, hp, if_false] at h
      simp [insertEntry, hp, ih h]

theorem length_eraseKey_le (s : Store) (k : String) :
    (eraseKey s k).length ≤ s.length := by
  induction s with
  | nil => simp [eraseKey]
  | cons p rest ih =>
    obtain ⟨k₁, e₁⟩ := p
    by_cases h : k₁ = k
    · simp only [eraseKey, h, if_true, List.length_cons]; omega
    · simp only [eraseKey, h, if_false, List.length_cons]; omega

theorem length_eraseKey_of_present (s : Store) (k : String)
    (h : (lookupStore s k).isSome) : (eraseKey s k).length + 1 = s.length := by
  induction s with
  | nil => simp [lookupStore] at h
  | cons p rest ih =>
    obtain ⟨k₁, e₁⟩ := p
    by_cases hp : k₁ = k
    · simp [eraseKey, hp]
    · simp only [lookupStore, hp, if_false] at h
      simp only [eraseKey, hp, if_false, List.length_cons]
      have := ih h
      omega

theorem lookup_eraseKey_ne (s : Store) (k k' : String) (h : k' ≠ k) :
    lookupStore (eraseKey s k) k' = lookupStore s k' := by
  induction s with
  | nil => simp [eraseKey]
  | cons p rest ih =>
    obtain ⟨k₁, e₁⟩ := p
    by_cases hp : k₁ = k
    · subst hp
      simp [eraseKey, lookupStore, Ne.symm h]
    · simp only [eraseKey, hp, if_false, lookupStore]
      by_cases hp' : k₁ = k'
      · simp [hp']
      · simp [hp', ih]

theorem lookup_none_of_not_mem (s : Store) (k : String)
    (h : k ∉ s.map Prod.fst) : lookupStore s k = Option.none := by
  induction s with
  | nil => simp [lookupStore]
  | cons p rest ih =>
    obtain ⟨k₁, e₁⟩ := p
    simp only [List.map_cons, List.mem_cons] at h
    push_neg at h
    simp [lookupStore, Ne.symm h.1, ih h.2]

theorem lookup_eraseKey_self (s : Store) (k : String)
    (h : (s.map Prod.fst).Nodup) : lookupStore (eraseKey s k) k = Option.none := by
  induction s with
  | nil => simp [eraseKey, lookupStore]
  | cons p rest ih =>
    obtain ⟨k₁, e₁⟩ := p
    simp only [List.map_cons, List.nodup_cons] at h
    by_cases hp : k₁ = k
    · subst hp
      simp only [eraseKey, if_pos rfl]
      exact lookup_none_of_not_mem rest k₁ h.1
    · simp [eraseKey, lookupStore, hp, ih h.2]

/-! ### Lemmas about the oldest-entry search -/

theorem oldestAux_mem (s : Store) : ∀ best : String × Entry,
    oldestAux best s = best ∨ oldestAux best s ∈ s := by
  induction s with
  | nil => intro best; left; rfl
  | cons p rest ih =>
    intro best
    simp only [oldestAux]
    by_cases h : p.2.timestamp < best.2.timestamp
    · rw [if_pos h]
      rcases ih p with h1 | h1
      · right; rw [h1]; exact List.mem_cons_self _ _
      · right; exact List.mem_cons_of_mem _ h1
    · rw [if_neg h]
      rcases ih best with h1 | h1
      · left; exact h1
      · right; exact List.mem_cons_of_mem _ h1

theorem oldestAux_le_best (s : Store) : ∀ best : String × Entry,
    (oldestAux best s).2.timestamp ≤ best.2.timestamp := by
  induction s with
  | nil => intro best; exact le_refl _
  | cons p rest ih =>
    intro best
    simp only [oldestAux]
    by_cases h : p.2.timestamp < best.2.timestamp
    · rw [if_pos h]
      exact le_trans (ih p) (le_of_lt h)
    · rw [if_neg h]
      exact ih best

theorem oldestAux_min (s : Store) : ∀ (best : String × Entry),
    ∀ p ∈ s, (oldestAux best s).2.timestamp ≤ p.2.timestamp := by
  induction s with
  | nil => intro best p hp; cases hp
  | cons q rest ih =>
    intro best p hp
    rcases List.mem_cons.mp hp with rfl | hp
    · simp only [oldestAux]
      by_cases h : p.2.timestamp < best.2.timestamp
      · rw [if_pos h]; exact oldestAux_le_best rest p
      · rw [if_neg h]
        exact le_trans (oldestAux_le_best rest best) (le_of_not_lt h)
    · simp only [oldestAux]
      by_cases h : q.2.timestamp < best.2.timestamp
      · rw [if_pos h]; exact ih q p hp
      · rw [if_neg h]; exact ih best p hp

theorem oldest_mem (s : Store) (q : String × Entry) (h : oldest s = some q) : q ∈ s := by
  cases s with
  | nil => cases h
  | cons p rest =>
    simp only [oldest, Option.some.injEq] at h
    rcases oldestAux_mem rest p with h1 | h1
    · rw [← h, h1]; exact List.mem_cons_self _ _
    · rw [← h]; exact List.mem_cons_of_mem _ h1

theorem oldest_min (s : Store) (q : String × Entry) (h : oldest s = some q) :
    ∀ p ∈ s, q.2.timestamp ≤ p.2.timestamp := by
  cases s with
  | nil => cases h
  | cons r rest =>
    simp only [oldest, Option.some.injEq] at h
    intro p hp
    rcases List.mem_cons.mp hp with rfl | hp
    · rw [← h]; exact oldestAux_le_best rest p
    · rw [← h]; exact oldestAux_min rest r p hp

theorem oldest_isSome (s : Store) (h : s ≠ []) : ∃ q, oldest s = some q := by
  cases s with
  | nil => exact absurd rfl h
  | cons p rest => exact ⟨oldestAux p rest, rfl⟩

/-! ### Lemmas about pattern invalidation's key sweep -/

theorem foldl_erase_cons (k : String) (e : Entry) :
    ∀ (ks : List String) (s : Store), (∀ k' ∈ ks, k' ≠ k) →
    ks.foldl eraseKey ((k, e) :: s) = (k, e) :: ks.foldl eraseKey s := by
  intro ks
  induction ks with
  | nil => intro s _; rfl
  | cons k' ks ih =>
    intro s h
    have hk : k' ≠ k := h k' (List.mem_cons_self _ _)
    simp only [List.foldl_cons, eraseKey, Ne.symm hk, if_false]
    exact ih (eraseKey s k') (fun x hx => h x (List.mem_cons_of_mem _ hx))

theorem mem_filter_keys_matching (f : String → Bool) (s : Store) (k' : String)
    (h : k' ∈ (s.filter (fun q => f q.1)).map Prod.fst) : f k' = true := by
  rcases List.mem_map.mp h with ⟨q, hq, rfl⟩
  exact (List.mem_filter.mp hq).2

theorem foldl_erase_matching (f : String → Bool) (s : Store) :
    ((s.filter (fun q => f q.1)).map Prod.fst).foldl eraseKey s =
      s.filter (fun q => !(f q.1)) := by
  induction s with
  | nil => rfl
  | cons p rest ih =>
    obtain ⟨k, e⟩ := p
    by_cases h : f k = true
    · have h1 : List.filter (fun q : String × Entry => f q.1) ((k, e) :: rest)
          = (k, e) :: List.filter (fun q : String × Entry => f q.1) rest := by
        simp [List.filter_cons, h]
      have h2 : List.filter (fun q : String × Entry => !(f q.1)) ((k, e) :: rest)
          = List.filter (fun q : String × Entry => !(f q.1)) rest := by
        simp [List.filter_cons, h]
      rw [h1, h2]
      simp only [List.map_cons, List.foldl_cons, eraseKey, if_pos rfl]
      exact ih
    · have hb : f k = false := by simpa using h
      have h1 : List.filter (fun q : String × Entry => f q.1) ((k, e) :: rest)
          = List.filter (fun q : String × Entry => f q.1) rest := by
        simp [List.filter_cons, hb]
      have h2 : List.filter (fun q : String × Entry => !(f q.1)) ((k, e) :: rest)
          = (k, e) :: List.filter (fun q : String × Entry => !(f q.1)) rest := by
        simp [List.filter_cons, hb]
      rw [h1, h2]
      have hne : ∀ k' ∈ (List.filter (fun q : String × Entry => f q.1) rest).map Prod.fst,
          k' ≠ k := by
        intro k' hk' hkk
        have hm := mem_filter_keys_matching f rest k' hk'
        rw [hkk, hb] at hm
        cases hm
      rw [foldl_erase_cons k e _ rest hne, ih]

theorem length_foldl_erase_le (ks : List String) : ∀ s : Store,
    (ks.foldl eraseKey s).length ≤ s.length := by
  induction ks with
  | nil => intro s; exact le_refl _
  | cons k ks ih =>
    intro s
    exact le_trans (ih (eraseKey s k)) (length_eraseKey_le s k)

theorem lookup_filter_matching (f : String → Bool) (s : Store) (k : String)
    (h : f k = true) :
    lookupStore (s.filter (fun q => !(f q.1))) k = Option.none := by
  induction s with
  | nil => rfl
  | cons p rest ih =>
    obtain ⟨k₁, e₁⟩ := p
    by_cases h1 : f k₁ = true
    · have hf : List.filter (fun q : String × Entry => !(f q.1)) ((k₁, e₁) :: rest)
          = List.filter (fun q : String × Entry => !(f q.1)) rest := by
        simp [List.filter_cons, h1]
      rw [hf]
      exact ih
    · have hb : f k₁ = false := by simpa using h1
      have hf : List.filter (fun q : String × Entry => !(f q.1)) ((k₁, e₁) :: rest)
          = (k₁, e₁) :: List.filter (fun q : String × Entry => !(f q.1)) rest := by
        simp [List.filter_cons, hb]
      rw [hf]
      have hne : k₁ ≠ k := by
        intro hh; rw [hh, h] at hb; cases hb
      simp [lookupStore, hne, ih]

theorem lookup_filter_not_matching (f : String → Bool) (s : Store) (k : String)
    (h : f k = false) :
    lookupStore (s.filter (fun q => !(f q.1))) k = lookupStore s k := by
  induction s with
  | nil => rfl
  | cons p rest ih =>
    obtain ⟨k₁, e₁⟩ := p
    by_cases h1 : f k₁ = true
    · have hne : k₁ ≠ k := by
        intro hh; rw [hh, h] at h1; cases h1
      have hf : List.filter (fun q : String × Entry => !(f q.1)) ((k₁, e₁) :: rest)
          = List.filter (fun q : String × Entry => !(f q.1)) rest := by
        simp [List.filter_cons, h1]
      rw [hf]
      simp [lookupStore, hne, ih]
    · have hb : f k₁ = false := by simpa using h1
      have hf : List.filter (fun q : String × Entry => !(f q.1)) ((k₁, e₁) :: rest)
          = (k₁, e₁) :: List.filter (fun q : String × Entry => !(f q.1)) rest := by
        simp [List.filter_cons, hb]
      rw [hf]
      by_cases h2 : k₁ = k
      · simp [lookupStore, h2]
      · simp [lookupStore, h2, ih]

/-! ### The capacity invariant -/

/-- No namespace ever holds more entries than its configured max size. -/
def SizeInv (st : CacheState) : Prop :=
  ∀ ns, (st.caches ns).length ≤ maxSizes ns

theorem maxSizes_pos (ns : String) (h : ns ∈ knownNamespaces) : 1 ≤ maxSizes ns := by
  simp only [knownNamespaces, List.mem_cons, List.not_mem_nil, or_false] at h
  rcases h with rfl | rfl | rfl | rfl | rfl | rfl | rfl | rfl <;> decide

theorem lookup_isSome_of_mem (s : Store) (k : String) (e : Entry) :
    (k, e) ∈ s → (lookupStore s k).isSome := by
  induction s with
  | nil => intro h; cases h
  | cons p rest ih =>
    intro h
    obtain ⟨k₁, e₁⟩ := p
    by_cases hk : k₁ = k
    · simp [lookupStore, hk]
    · simp only [lookupStore, hk, if_false]
      rcases List.mem_cons.mp h with heq | hmem
      · exact absurd (congrArg Prod.fst heq).symm hk
      · exact ih hmem

theorem sizeInv_updF_le (st : CacheState) (ns : String) (s : Store)
    (h : SizeInv st) (hs : s.length ≤ maxSizes ns) :
    SizeInv { st with caches := updF st.caches ns s } := by
  intro n
  by_cases hn : n = ns
  · subst hn; simpa [updF] using hs
  · simpa [updF, hn] using h n

theorem get_sizeInv (st : CacheState) (ns key : String) (d : Value) (now : Nat)
    (h : SizeInv st) : SizeInv (PlatformCacheManager.get st ns key d now).2 := by
  by_cases hns : ns ∈ knownNamespaces
  · simp only [PlatformCacheManager.get, if_pos hns]
    cases hl : lookupStore (st.caches ns) key with
    | none => intro n; simpa using h n
    | some e =>
      by_cases httl : now - e.timestamp < ttlSettings ns
      · simp only [hl, if_pos httl]
        intro n; simpa using h n
      · simp only [hl, if_neg httl]
        have h1 := sizeInv_updF_le st ns (eraseKey (st.caches ns) key) h
          (le_trans (length_eraseKey_le (st.caches ns) key) (h ns))
        intro n; simpa [updF] using h1 n
  · simp only [PlatformCacheManager.get, if_neg hns]
    exact h

theorem set_sizeInv (st : CacheState) (ns key : String) (v : Value) (now : Nat)
    (h : SizeInv st) : SizeInv (PlatformCacheManager.set st ns key v now).2 := by
  by_cases hns : ns ∈ knownNamespaces
  · simp only [PlatformCacheManager.set, if_pos hns]
    by_cases hcap : maxSizes ns ≤ (st.caches ns).length
    · have hlen : (st.caches ns).length = maxSizes ns := le_antisymm (h ns) hcap
      have hpos := maxSizes_pos ns hns
      have hne : st.caches ns ≠ [] := by
        intro hnil
        rw [hnil] at hlen
        simp at hlen
        omega
      obtain ⟨q, hq⟩ := oldest_isSome _ hne
      obtain ⟨k₀, e₀⟩ := q
      have hsome := lookup_isSome_of_mem _ _ _ (oldest_mem _ _ hq)
      simp only [if_pos hcap, hq]
      have hlen2 : (insertEntry (eraseKey (st.caches ns) k₀) key ⟨v, now⟩).length
          ≤ maxSizes ns := by
        have h1 := length_insertEntry_le (eraseKey (st.caches ns) k₀) key ⟨v, now⟩
        have h2 := length_eraseKey_of_present (st.caches ns) k₀ hsome
        omega
      have h3 := sizeInv_updF_le st ns _ h hlen2
      intro n; simpa [updF] using h3 n
    · simp only [if_neg hcap]
      have hlen2 : (insertEntry (st.caches ns) key ⟨v, now⟩).length ≤ maxSizes ns := by
        have h1 := length_insertEntry_le (st.caches ns) key ⟨v, now⟩
        omega
      have h3 := sizeInv_updF_le st ns _ h hlen2
      intro n; simpa [updF] using h3 n
  · simp only [PlatformCacheManager.set, if_neg hns]
    exact h

theorem delete_sizeInv (st : CacheState) (ns key : String)
    (h : SizeInv st) : SizeInv (PlatformCacheManager.delete st ns key).2 := by
  by_cases hns : ns ∈ knownNamespaces
  · simp only [PlatformCacheManager.delete, if_pos hns]
    by_cases hl : (lookupStore (st.caches ns) key).isSome
    · simp only [hl, if_pos rfl, if_true]
      have h1 := sizeInv_updF_le st ns (eraseKey (st.caches ns) key) h
        (le_trans (length_eraseKey_le (st.caches ns) key) (h ns))
      intro n
      by_cases hb : (lookupStore (st.caches ns) key).isSome = true
      · simpa [hb] using h1 n
      · exact absurd hl hb
    · simp only [Bool.not_eq_true] at hl
      simp only [hl, Bool.false_eq_true, if_false]
      exact h
  · simp only [PlatformCacheManager.delete, if_neg hns]
    exact h

theorem clear_sizeInv (st : CacheState) (o : Option String)
    (h : SizeInv st) : SizeInv (PlatformCacheManager.clear st o) := by
  cases o with
  | none =>
    intro n
    by_cases hn : n ∈ knownNamespaces <;>
      simp [PlatformCacheManager.clear, hn, h n]
  | some ns =>
    by_cases hns : ns ∈ knownNamespaces
    · simp only [PlatformCacheManager.clear, if_pos hns]
      have h1 := sizeInv_updF_le st ns [] h (by simp)
      intro n; simpa [updF] using h1 n
    · simp only [PlatformCacheManager.clear, if_neg hns]
      exact h

theorem invalidate_sizeInv (st : CacheState) (ns : String) (p : Pattern)
    (h : SizeInv st) :
    SizeInv (match PlatformCacheManager.invalidate_pattern st ns p with
             | Except.ok r => r.2
             | Except.error _ => st) := by
  by_cases hns : ns ∈ knownNamespaces
  · cases p with
    | invalid =>
      simp only [PlatformCacheManager.invalidate_pattern, if_pos hns]
      exact h
    | valid f =>
      simp only [PlatformCacheManager.invalidate_pattern, if_pos hns]
      have h1 := sizeInv_updF_le st ns
        ((((st.caches ns).filter (fun q => f q.1)).map Prod.fst).foldl eraseKey (st.caches ns)) h
        (le_trans (length_foldl_erase_le (((st.caches ns).filter (fun q => f q.1)).map Prod.fst)
          (st.caches ns)) (h ns))
      intro n; simpa [updF] using h1 n
  · simp only [PlatformCacheManager.invalidate_pattern, if_neg hns]
    exact h

theorem cleanupStep_sizeInv (now : Nat) (acc : Nat × CacheState) (ns : String)
    (h : SizeInv acc.2) : SizeInv (cleanupStep now acc ns).2 := by
  simp only [cleanupStep]
  have h1 := sizeInv_updF_le acc.2 ns
    ((((acc.2.caches ns).filter (fun q => ttlSettings ns ≤ now - q.2.timestamp)).map
      Prod.fst).foldl eraseKey (acc.2.caches ns)) h
    (le_trans (length_foldl_erase_le (((acc.2.caches ns).filter
      (fun q => ttlSettings ns ≤ now - q.2.timestamp)).map Prod.fst) (acc.2.caches ns)) (h ns))
  intro n; simpa [updF] using h1 n

theorem cleanup_foldl_sizeInv (nss : List String) : ∀ acc : Nat × CacheState,
    SizeInv acc.2 → SizeInv (nss.foldl (cleanupStep now) acc).2 := by
  induction nss with
  | nil => intro acc h; exact h
  | cons ns nss ih =>
    intro acc h
    exact ih _ (cleanupStep_sizeInv now acc ns h)

theorem applyOp_sizeInv (st : CacheState) (o : Op) (h : SizeInv st) :
    SizeInv (applyOp st o) := by
  cases o with
  | get ns key d now => exact get_sizeInv st ns key d now h
  | set ns key v now => exact set_sizeInv st ns key v now h
  | del ns key => exact delete_sizeInv st ns key h
  | clear o => exact clear_sizeInv st o h
  | invalidate ns p => exact invalidate_sizeInv st ns p h
  | cleanup now =>
    simp only [applyOp, PlatformCacheManager.cleanup_expired]
    exact cleanup_foldl_sizeInv knownNamespaces (0, st) h

theorem runOps_sizeInv (ops : List Op) : ∀ st : CacheState,
    SizeInv st → SizeInv (runOps st ops) := by
  induction ops with
  | nil => intro st h; exact h
  | cons o ops ih =>
    intro st h
    exact ih (applyOp st o) (applyOp_sizeInv st o h)

theorem initState_sizeInv : SizeInv initState := by
  intro ns
  simp [initState]

/-! ### Characterisation lemmas for the compiler folds -/

theorem foldl_collect {α β γ : Type} (g : α → Option (β × List γ)) (l : List α) :
    ∀ acc : List β × List γ,
    l.foldl (appendCompiled g) acc =
    (acc.1 ++ (l.filterMap g).map Prod.fst,
     acc.2 ++ ((l.filterMap g).map Prod.snd).flatten) := by
  induction l with
  | nil => intro acc; simp
  | cons c l ih =>
    intro acc
    cases hg : g c with
    | none =>
      simp only [List.foldl_cons, appendCompiled, hg, List.filterMap_cons, ih]
    | some r =>
      obtain ⟨b, ps⟩ := r
      simp only [List.foldl_cons, appendCompiled, hg, List.filterMap_cons, ih, List.map_cons,
        List.flatten_cons, List.append_assoc, List.singleton_append]

theorem buildGroup_eq (logic : Option String) (conds : List Cond) :
    buildGroup (FilterGroup.mk logic conds) =
      (let survivors := conds.filterMap compileCond
       if survivors.isEmpty then Option.none
       else
         some
           ((if 1 < survivors.length
             then "(" ++ String.intercalate (" " ++ logic.getD "AND" ++ " ")
               (survivors.map Prod.fst) ++ ")"
             else String.intercalate (" " ++ logic.getD "AND" ++ " ")
               (survivors.map Prod.fst)),
            (survivors.map Prod.snd).flatten)) := by
  simp only [buildGroup]
  rw [foldl_collect compileCond conds ([], [])]
  simp [List.isEmpty_iff, List.length_map]

theorem invalidate_pattern_known (st : CacheState) (ns : String) (f : String → Bool)
    (h : ns ∈ knownNamespaces) :
    PlatformCacheManager.invalidate_pattern st ns (Pattern.valid f) =
      Except.ok (((st.caches ns).filter (fun q => f q.1)).length,
        { st with caches := updF st.caches ns ((st.caches ns).filter (fun q => !(f q.1))) }) := by
  simp only [PlatformCacheManager.invalidate_pattern, if_pos h, foldl_erase_matching,
    List.length_map]

theorem build_condition_fragment (field op : String) (v : Value) :
    (DatabaseManager.build_condition field op v).1 = fragSpec field op (shapeOf v) := by
  unfold DatabaseManager.build_condition fragSpec
  simp only [shapeOf]
  by_cases h1 : op = "equals"
  · simp [h1]
  simp only [if_neg h1]
  by_cases h2 : op = "not_equals"
  · simp [h2]
  simp only [if_neg h2]
  by_cases h3 : op = "contains"
  · simp [h3]
  simp only [if_neg h3]
  by_cases h4 : op = "not_contains"
  · simp [h4]
  simp only [if_neg h4]
  by_cases h5 : op = "starts_with"
  · simp [h5]
  simp only [if_neg h5]
  by_cases h6 : op = "ends_with"
  · simp [h6]
  simp only [if_neg h6]
  by_cases h7 : op = "greater_than"
  · simp [h7]
  simp only [if_neg h7]
  by_cases h8 : op = "less_than"
  · simp [h8]
  simp only [if_neg h8]
  by_cases h9 : op = "greater_equal"
  · simp [h9]
  simp only [if_neg h9]
  by_cases h10 : op = "less_equal"
  · simp [h10]
  simp only [if_neg h10]
  by_cases h11 : op = "is_null"
  · simp [h11]
  simp only [if_neg h11]
  by_cases h12 : op = "is_not_null"
  · simp [h12]
  simp only [if_neg h12]
  by_cases h13 : op = "in"
  · simp only [h13, if_pos rfl]
    cases hsv : splitInValues v with
    | nil => simp [hsv]
    | cons a l => simp [hsv]
  simp only [if_neg h13]
  by_cases h14 : op = "not_in"
  · simp only [h14, if_pos rfl]
    cases hsv : splitInValues v with
    | nil => simp [hsv]
    | cons a l => simp [hsv]
  simp only [if_neg h14]
  by_cases h15 : op = "between"
  · simp only [h15, if_pos rfl]
    cases v with
    | scalar s => simp [hasMinMax]
    | list vs => simp [hasMinMax]
    | dict ps =>
      cases hmin : ps.lookup "min" with
      | none => simp [hasMinMax, hmin]
      | some lo =>
        cases hmax : ps.lookup "max" with
        | none => simp [hasMinMax, hmin, hmax]
        | some hi => simp [hasMinMax, hmin, hmax]
  simp only [if_neg h15]

/-! ### Helper lemmas about get and set -/

theorem updF_apply_self {α : Type} (f : String → α) (ns : String) (v : α) :
    updF f ns v ns = v := by simp [updF]

theorem updF_apply_ne {α : Type} (f : String → α) (ns n : String) (v : α) (h : n ≠ ns) :
    updF f ns v n = f n := by simp [updF, h]

theorem get_hit (st : CacheState) (ns key : String) (d : Value) (now : Nat) (e : Entry)
    (hns : ns ∈ knownNamespaces)
    (hl : lookupStore (st.caches ns) key = some e)
    (httl : now - e.timestamp < ttlSettings ns) :
    PlatformCacheManager.get st ns key d now =
      (e.data,
       { st with
         totalRequests := updF st.totalRequests ns (st.totalRequests ns + 1),
         hits := updF st.hits ns (st.hits ns + 1) }) := by
  simp only [PlatformCacheManager.get, if_pos hns, hl, if_pos httl]

theorem set_lookup_self (st : CacheState) (ns key : String) (v : Value) (now : Nat)
    (hns : ns ∈ knownNamespaces) :
    lookupStore ((PlatformCacheManager.set st ns key v now).2.caches ns) key =
      some ⟨v, now⟩ := by
  simp only [PlatformCacheManager.set, if_pos hns]
  by_cases hcap : maxSizes ns ≤ (st.caches ns).length
  · simp only [if_pos hcap]
    cases ho : oldest (st.caches ns) with
    | none => simp [updF, lookup_insertEntry_self]
    | some q =>
      obtain ⟨k₀, e₀⟩ := q
      simp [updF, lookup_insertEntry_self]
  · simp only [if_neg hcap]
    simp [updF, lookup_insertEntry_self]

/-! ### Claim theorems -/

/-- Claim C1: the predicate fragment produced by `_build_condition` does not
depend on the user-supplied value itself, only on its shape: for any two
values of the same shape (same scalar kind, same number of split list
elements, same `between` well-formedness) the fragment strings are
identical, so a value reaches the output only through the parameter list. -/
theorem C1_fragment_value_independent (field op : String) (v₁ v₂ : Value)
    (h : shapeOf v₁ = shapeOf v₂) :
    (DatabaseManager.build_condition field op v₁).1 =
      (DatabaseManager.build_condition field op v₂).1 := by
  rw [build_condition_fragment, build_condition_fragment, h]

/-- Witness for C1 at concrete inputs: two different strings of the same
shape compile to the same fragment. -/
theorem C1_fragment_value_independent_witness :
    shapeOf (Value.scalar (Scalar.sstr "alice")) =
      shapeOf (Value.scalar (Scalar.sstr "bobby")) ∧
    (DatabaseManager.build_condition "name" "equals" (Value.scalar (Scalar.sstr "alice"))).1 =
      (DatabaseManager.build_condition "name" "equals" (Value.scalar (Scalar.sstr "bobby"))).1 :=
  ⟨by decide,
   C1_fragment_value_independent "name" "equals" (Value.scalar (Scalar.sstr "alice"))
     (Value.scalar (Scalar.sstr "bobby")) (by decide)⟩

/-- Claim C2: (1) starting from the freshly initialised cache, after any
sequence of operations no namespace holds more entries than its configured
max size; (2) a `set` on a known namespace whose entry count equals its
capacity removes exactly one entry — one carrying the minimal `insertedAt`
timestamp of the namespace — increments the eviction counter, and then
inserts the new entry with the current time as its timestamp. -/
theorem C2_capacity_invariant_and_eviction :
    (∀ (ops : List Op) (ns : String),
      ((runOps initState ops).caches ns).length ≤ maxSizes ns)
    ∧ (∀ (st : CacheState) (ns key : String) (v : Value) (now : Nat),
        ns ∈ knownNamespaces →
        (st.caches ns).length = maxSizes ns →
        ∃ k₀ e₀, oldest (st.caches ns) = some (k₀, e₀) ∧
          (k₀, e₀) ∈ st.caches ns ∧
          (∀ p ∈ st.caches ns, e₀.timestamp ≤ p.2.timestamp) ∧
          (PlatformCacheManager.set st ns key v now).2.evictions ns =
            st.evictions ns + 1 ∧
          (PlatformCacheManager.set st ns key v now).2.caches ns =
            insertEntry (eraseKey (st.caches ns) k₀) key ⟨v, now⟩ ∧
          (eraseKey (st.caches ns) k₀).length + 1 = (st.caches ns).length ∧
          lookupStore ((PlatformCacheManager.set st ns key v now).2.caches ns) key =
            some ⟨v, now⟩) := by
  constructor
  · intro ops ns
    exact runOps_sizeInv ops initState initState_sizeInv ns
  · intro st ns key v now hns hlen
    have hpos := maxSizes_pos ns hns
    have hne : st.caches ns ≠ [] := by
      intro hnil; rw [hnil] at hlen; simp at hlen; omega
    obtain ⟨q, hq⟩ := oldest_isSome _ hne
    obtain ⟨k₀, e₀⟩ := q
    have hcap : maxSizes ns ≤ (st.caches ns).length := le_of_eq hlen.symm
    refine ⟨k₀, e₀, hq, oldest_mem _ _ hq, ?_, ?_, ?_, ?_, ?_⟩
    · intro p hp; exact oldest_min _ _ hq p hp
    · simp only [PlatformCacheManager.set, if_pos hns, if_pos hcap, hq]
      simp [updF]
    · simp only [PlatformCacheManager.set, if_pos hns, if_pos hcap, hq]
      simp [updF]
    · exact length_eraseKey_of_present _ _
        (lookup_isSome_of_mem _ _ _ (oldest_mem _ _ hq))
    · exact set_lookup_self st ns key v now hns

/-- A namespace filled exactly to the `configuration` capacity of 50. -/
def capStore : Store :=
  (List.range 50).map (fun i => (toString i, ⟨Value.scalar (Scalar.sint (Int.ofNat i)), i⟩))

/-- A cache state whose `configuration` namespace is at capacity. -/
def capState : CacheState :=
  { initState with caches := updF initState.caches "configuration" capStore }

/-- Witness for C2: a concrete operation sequence respects the bound, and a
concrete at-capacity `set` exhibits the eviction behaviour. -/
theorem C2_capacity_invariant_and_eviction_witness :
    ((runOps initState [Op.set "user_data" "k" (Value.scalar Scalar.snone) 5]).caches
      "user_data").length ≤ maxSizes "user_data"
    ∧ (∃ k₀ e₀, oldest (capState.caches "configuration") = some (k₀, e₀) ∧
        (k₀, e₀) ∈ capState.caches "configuration" ∧
        (∀ p ∈ capState.caches "configuration", e₀.timestamp ≤ p.2.timestamp) ∧
        (PlatformCacheManager.set capState "configuration" "newkey"
          (Value.scalar Scalar.snone) 100).2.evictions "configuration" =
          capState.evictions "configuration" + 1 ∧
        (PlatformCacheManager.set capState "configuration" "newkey"
          (Value.scalar Scalar.snone) 100).2.caches "configuration" =
          insertEntry (eraseKey (capState.caches "configuration") k₀) "newkey"
            ⟨Value.scalar Scalar.snone, 100⟩ ∧
        (eraseKey (capState.caches "configuration") k₀).length + 1 =
          (capState.caches "configuration").length ∧
        lookupStore ((PlatformCacheManager.set capState "configuration" "newkey"
          (Value.scalar Scalar.snone) 100).2.caches "configuration") "newkey" =
          some ⟨Value.scalar Scalar.snone, 100⟩) :=
  ⟨C2_capacity_invariant_and_eviction.1 [Op.set "user_data" "k" (Value.scalar Scalar.snone) 5]
     "user_data",
   C2_capacity_invariant_and_eviction.2 capState "configuration" "newkey"
     (Value.scalar Scalar.snone) 100 (by decide) (by decide)⟩

/-- Claim C3: on a known namespace whose cache dict has (as every Python dict)
distinct keys, a `get` that finds the entry with age at or past the TTL
deletes it, increments `evictions` and `misses` (leaving `hits` unchanged),
and returns the default; moreover `get` only ever returns a non-default
value read from an entry younger than the TTL, and after such an expired
read the key is gone from the namespace. -/
theorem C3_expired_get :
    (∀ (st : CacheState) (ns key : String) (d : Value) (now : Nat) (e : Entry),
      ns ∈ knownNamespaces →
      ((st.caches ns).map Prod.fst).Nodup →
      lookupStore (st.caches ns) key = some e →
      ttlSettings ns ≤ now - e.timestamp →
      (PlatformCacheManager.get st ns key d now).1 = d ∧
      lookupStore (((PlatformCacheManager.get st ns key d now).2).caches ns) key =
        Option.none ∧
      (PlatformCacheManager.get st ns key d now).2.evictions ns = st.evictions ns + 1 ∧
      (PlatformCacheManager.get st ns key d now).2.misses ns = st.misses ns + 1 ∧
      (PlatformCacheManager.get st ns key d now).2.hits ns = st.hits ns)
    ∧ (∀ (st : CacheState) (ns key : String) (d : Value) (now : Nat),
      (PlatformCacheManager.get st ns key d now).1 = d ∨
      ∃ e, lookupStore (st.caches ns) key = some e ∧
        (PlatformCacheManager.get st ns key d now).1 = e.data ∧
        now - e.timestamp < ttlSettings ns) := by
  constructor
  · intro st ns key d now e hns hnd hl httl
    have httl2 : ¬ now - e.timestamp < ttlSettings ns := not_lt.mpr httl
    refine ⟨?_, ?_, ?_, ?_, ?_⟩
    · simp only [PlatformCacheManager.get, if_pos hns, hl, if_neg httl2]
    · simp only [PlatformCacheManager.get, if_pos hns, hl, if_neg httl2, updF_apply_self]
      exact lookup_eraseKey_self _ _ hnd
    · simp only [PlatformCacheManager.get, if_pos hns, hl, if_neg httl2, updF_apply_self]
    · simp only [PlatformCacheManager.get, if_pos hns, hl, if_neg httl2, updF_apply_self]
    · simp only [PlatformCacheManager.get, if_pos hns, hl, if_neg httl2]
  · intro st ns key d now
    by_cases hns : ns ∈ knownNamespaces
    · cases hl : lookupStore (st.caches ns) key with
      | none =>
        left
        simp only [PlatformCacheManager.get, if_pos hns, hl]
      | some e =>
        by_cases httl : now - e.timestamp < ttlSettings ns
        · right
          exact ⟨e, rfl, by simp only [PlatformCacheManager.get, if_pos hns, hl, if_pos httl],
            httl⟩
        · left
          simp only [PlatformCacheManager.get, if_pos hns, hl, if_neg httl]
    · left
      simp only [PlatformCacheManager.get, if_neg hns]

/-- A one-entry `user_data` namespace for the C3 witness. -/
def expiredState : CacheState :=
  { initState with
    caches := updF initState.caches "user_data" [("k", ⟨Value.scalar (Scalar.sint 7), 0⟩)] }

/-- Witness for C3: a concrete expired read (age 100 ≥ TTL 30) misses,
deletes the key, and bumps the counters. -/
theorem C3_expired_get_witness :
    ((PlatformCacheManager.get expiredState "user_data" "k" (Value.scalar Scalar.snone)
        100).1 = Value.scalar Scalar.snone ∧
      lookupStore (((PlatformCacheManager.get expiredState "user_data" "k"
        (Value.scalar Scalar.snone) 100).2).caches "user_data") "k" = Option.none ∧
      (PlatformCacheManager.get expiredState "user_data" "k" (Value.scalar Scalar.snone)
        100).2.evictions "user_data" = expiredState.evictions "user_data" + 1 ∧
      (PlatformCacheManager.get expiredState "user_data" "k" (Value.scalar Scalar.snone)
        100).2.misses "user_data" = expiredState.misses "user_data" + 1 ∧
      (PlatformCacheManager.get expiredState "user_data" "k" (Value.scalar Scalar.snone)
        100).2.hits "user_data" = expiredState.hits "user_data")
    ∧ ((PlatformCacheManager.get expiredState "user_data" "missing"
        (Value.scalar Scalar.snone) 100).1 = Value.scalar Scalar.snone ∨
      ∃ e, lookupStore (expiredState.caches "user_data") "missing" = some e ∧
        (PlatformCacheManager.get expiredState "user_data" "missing"
          (Value.scalar Scalar.snone) 100).1 = e.data ∧
        100 - e.timestamp < ttlSettings "user_data") :=
  ⟨C3_expired_get.1 expiredState "user_data" "k" (Value.scalar Scalar.snone) 100
     ⟨Value.scalar (Scalar.sint 7), 0⟩ (by decide) (by decide) (by decide) (by decide),
   C3_expired_get.2 expiredState "user_data" "missing" (Value.scalar Scalar.snone) 100⟩

theorem build_condition_in (f : String) (v : Value) :
    DatabaseManager.build_condition f "in" v =
      (let values := splitInValues v
       if values.isEmpty then ("", [])
       else
         (quoteIdent f ++ " IN (" ++
            String.intercalate "," (List.replicate values.length "%s") ++ ")",
          values)) := rfl

theorem build_condition_not_in (f : String) (v : Value) :
    DatabaseManager.build_condition f "not_in" v =
      (let values := splitInValues v
       if values.isEmpty then ("", [])
       else
         (quoteIdent f ++ " NOT IN (" ++
            String.intercalate "," (List.replicate values.length "%s") ++ ")",
          values)) := rfl

/-- Claim C5: group compilation keeps exactly the conditions that survive
`compileCond` (non-dict entries, conditions with a falsy field or operation,
and conditions compiling to an empty fragment are dropped), joins the
survivors with the group's logic operator (default `AND`), parenthesises
exactly when more than one survives, and concatenates the surviving
parameter lists in encounter order; a condition with an operation outside
the recognised set, or with a missing field or operation, never survives;
and an absent/falsy filter spec, or one with no groups, compiles to
`("", [])`. -/
theorem C5_group_compilation :
    (∀ (logic : Option String) (conds : List Cond),
      buildGroup (FilterGroup.mk logic conds) =
        (let survivors := conds.filterMap compileCond
         if survivors.isEmpty then Option.none
         else
           some
             ((if 1 < survivors.length
               then "(" ++ String.intercalate (" " ++ logic.getD "AND" ++ " ")
                 (survivors.map Prod.fst) ++ ")"
               else String.intercalate (" " ++ logic.getD "AND" ++ " ")
                 (survivors.map Prod.fst)),
              (survivors.map Prod.snd).flatten)))
    ∧ (∀ (f op : String) (v : Value), op ∉ knownOperations →
        compileCond (Cond.mk f op v) = Option.none)
    ∧ (∀ (op : String) (v : Value), compileCond (Cond.mk "" op v) = Option.none)
    ∧ (∀ (f : String) (v : Value), compileCond (Cond.mk f "" v) = Option.none)
    ∧ DatabaseManager.build_where_clause Option.none = ("", [])
    ∧ (∀ logic : Option String,
        DatabaseManager.build_where_clause (some (FilterSpec.mk logic [])) = ("", [])) := by
  refine ⟨buildGroup_eq, ?_, ?_, ?_, rfl, ?_⟩
  · intro f op v hop
    simp only [knownOperations, List.mem_cons, List.not_mem_nil, or_false, not_or] at hop
    obtain ⟨n1, n2, n3, n4, n5, n6, n7, n8, n9, n10, n11, n12, n13, n14, n15⟩ := hop
    by_cases hf : f = ""
    · simp [compileCond, hf]
    · by_cases hop0 : op = ""
      · simp [compileCond, hop0]
      · simp [compileCond, hf, hop0, DatabaseManager.build_condition,
          n1, n2, n3, n4, n5, n6, n7, n8, n9, n10, n11, n12, n13, n14, n15]
  · intro op v
    simp [compileCond]
  · intro f v
    simp [compileCond]
  · intro logic
    simp [DatabaseManager.build_where_clause]

/-- Witness for C5: a group with a bogus operation, an empty field, and one
real condition keeps only the real condition (no parentheses, its params). -/
theorem C5_group_compilation_witness :
    buildGroup (FilterGroup.mk (some "OR")
      [Cond.mk "age" "bogus_op" (Value.scalar (Scalar.sint 1)),
       Cond.mk "age" "greater_than" (Value.scalar (Scalar.sint 30))]) =
      (let survivors :=
        [Cond.mk "age" "bogus_op" (Value.scalar (Scalar.sint 1)),
         Cond.mk "age" "greater_than" (Value.scalar (Scalar.sint 30))].filterMap compileCond
       if survivors.isEmpty then Option.none
       else
         some
           ((if 1 < survivors.length
             then "(" ++ String.intercalate (" " ++ (some "OR").getD "AND" ++ " ")
               (survivors.map Prod.fst) ++ ")"
             else String.intercalate (" " ++ (some "OR").getD "AND" ++ " ")
               (survivors.map Prod.fst)),
            (survivors.map Prod.snd).flatten))
    ∧ compileCond (Cond.mk "age" "bogus_op" (Value.scalar (Scalar.sint 1))) = Option.none :=
  ⟨C5_group_compilation.1 (some "OR")
     [Cond.mk "age" "bogus_op" (Value.scalar (Scalar.sint 1)),
      Cond.mk "age" "greater_than" (Value.scalar (Scalar.sint 30))],
   C5_group_compilation.2.1 "age" "bogus_op" (Value.scalar (Scalar.sint 1)) (by decide)⟩

/-- Claim C6: for an `in` / `not_in` condition whose value is a string, the
compiler splits on commas, strips each piece, drops empty pieces, emits one
`%s` placeholder per surviving element, and returns the surviving elements
(in order) as the parameters; if the element list comes out empty the whole
condition is dropped. -/
theorem C6_in_list_split :
    (∀ (f s : String),
      DatabaseManager.build_condition f "in" (Value.scalar (Scalar.sstr s)) =
        (let elems := ((pySplitComma s).map pyStrip).filter (fun t => t ≠ "")
         if elems.isEmpty then ("", [])
         else
           (quoteIdent f ++ " IN (" ++
              String.intercalate "," (List.replicate elems.length "%s") ++ ")",
            elems.map (fun t => Value.scalar (Scalar.sstr t)))))
    ∧ (∀ (f s : String),
      DatabaseManager.build_condition f "not_in" (Value.scalar (Scalar.sstr s)) =
        (let elems := ((pySplitComma s).map pyStrip).filter (fun t => t ≠ "")
         if elems.isEmpty then ("", [])
         else
           (quoteIdent f ++ " NOT IN (" ++
              String.intercalate "," (List.replicate elems.length "%s") ++ ")",
            elems.map (fun t => Value.scalar (Scalar.sstr t)))))
    ∧ (∀ (f op : String) (v : Value), (op = "in" ∨ op = "not_in") →
        splitInValues v = [] → compileCond (Cond.mk f op v) = Option.none) := by
  refine ⟨?_, ?_, ?_⟩
  · intro f s
    rw [build_condition_in]
    simp only [splitInValues]
    generalize ((pySplitComma s).map pyStrip).filter (fun t => t ≠ "") = elems
    cases elems with
    | nil => simp
    | cons a l => simp
  · intro f s
    rw [build_condition_not_in]
    simp only [splitInValues]
    generalize ((pySplitComma s).map pyStrip).filter (fun t => t ≠ "") = elems
    cases elems with
    | nil => simp
    | cons a l => simp
  · intro f op v hop hsv
    by_cases hf : f = ""
    · simp [compileCond, hf]
    · rcases hop with rfl | rfl
      · simp [compileCond, hf, build_condition_in, hsv]
      · simp [compileCond, hf, build_condition_not_in, hsv]

/-- Witness for C6: `"a, b ,c"` splits into three trimmed elements with three
placeholders, and an all-empty list such as `" , "` drops the condition. -/
theorem C6_in_list_split_witness :
    DatabaseManager.build_condition "field" "in" (Value.scalar (Scalar.sstr "a, b ,c")) =
      (let elems := ((pySplitComma "a, b ,c").map pyStrip).filter (fun t => t ≠ "")
       if elems.isEmpty then ("", [])
       else
         (quoteIdent "field" ++ " IN (" ++
            String.intercalate "," (List.replicate elems.length "%s") ++ ")",
          elems.map (fun t => Value.scalar (Scalar.sstr t))))
    ∧ compileCond (Cond.mk "field" "in" (Value.scalar (Scalar.sstr " , "))) = Option.none :=
  ⟨C6_in_list_split.1 "field" "a, b ,c",
   C6_in_list_split.2.2 "field" "in" (Value.scalar (Scalar.sstr " , "))
     (Or.inl rfl) (by decide)⟩

/-- Claim C7: on a known namespace, pattern invalidation with a valid
(compilable) pattern removes exactly the matching keys — every matching key
is gone, every non-matching key still resolves as before — returns the count
of the removed entries, leaves every other namespace and all counters
untouched, and never errors; an invalid pattern is surfaced as an error
(the `re.error` escapes to the caller); an unknown namespace returns 0
without error even for an invalid pattern. -/
theorem C7_invalidate_pattern :
    (∀ (st : CacheState) (ns : String) (f : String → Bool), ns ∈ knownNamespaces →
      ∃ st', PlatformCacheManager.invalidate_pattern st ns (Pattern.valid f) =
          Except.ok (((st.caches ns).filter (fun q => f q.1)).length, st') ∧
        (∀ key, f key = true → lookupStore (st'.caches ns) key = Option.none) ∧
        (∀ key, f key = false →
          lookupStore (st'.caches ns) key = lookupStore (st.caches ns) key) ∧
        (∀ ns2, ns2 ≠ ns → st'.caches ns2 = st.caches ns2) ∧
        st'.hits = st.hits ∧ st'.misses = st.misses ∧ st'.evictions = st.evictions)
    ∧ (∀ (st : CacheState) (ns : String), ns ∈ knownNamespaces →
        PlatformCacheManager.invalidate_pattern st ns Pattern.invalid = Except.error ())
    ∧ (∀ (st : CacheState) (ns : String) (p : Pattern), ns ∉ knownNamespaces →
        PlatformCacheManager.invalidate_pattern st ns p = Except.ok (0, st)) := by
  refine ⟨?_, ?_, ?_⟩
  · intro st ns f hns
    refine ⟨{ st with caches := updF st.caches ns ((st.caches ns).filter (fun q => !(f q.1))) },
      invalidate_pattern_known st ns f hns, ?_, ?_, ?_, rfl, rfl, rfl⟩
    · intro key hk
      simp only [updF_apply_self]
      exact lookup_filter_matching f _ key hk
    · intro key hk
      simp only [updF_apply_self]
      exact lookup_filter_not_matching f _ key hk
    · intro ns2 hne
      simp only [updF_apply_ne _ _ _ _ hne]
  · intro st ns hns
    simp only [PlatformCacheManager.invalidate_pattern, if_pos hns]
  · intro st ns p hns
    simp only [PlatformCacheManager.invalidate_pattern, if_neg hns]

/-- A `database_queries` namespace with matching and non-matching keys for
the C7 witness. -/
def patternState : CacheState :=
  { initState with
    caches := updF initState.caches "database_queries"
      [("tables:mydb", ⟨Value.scalar (Scalar.sint 1), 0⟩),
       ("tables:otherdb", ⟨Value.scalar (Scalar.sint 2), 0⟩),
       ("columns:mydb", ⟨Value.scalar (Scalar.sint 3), 0⟩)] }

/-- Witness for C7: a concrete sweep removes exactly the matching keys and
counts them; an invalid pattern errors on a known namespace but an unknown
namespace returns 0 first. -/
theorem C7_invalidate_pattern_witness :
    (∃ st', PlatformCacheManager.invalidate_pattern patternState "database_queries"
        (Pattern.valid (fun k => strContains k "tables:")) =
        Except.ok (((patternState.caches "database_queries").filter
          (fun q => strContains q.1 "tables:")).length, st') ∧
      (∀ key, strContains key "tables:" = true →
        lookupStore (st'.caches "database_queries") key = Option.none) ∧
      (∀ key, strContains key "tables:" = false →
        lookupStore (st'.caches "database_queries") key =
          lookupStore (patternState.caches "database_queries") key) ∧
      (∀ ns2, ns2 ≠ "database_queries" → st'.caches ns2 = patternState.caches ns2) ∧
      st'.hits = patternState.hits ∧ st'.misses = patternState.misses ∧
      st'.evictions = patternState.evictions)
    ∧ PlatformCacheManager.invalidate_pattern patternState "database_queries"
        Pattern.invalid = Except.error ()
    ∧ PlatformCacheManager.invalidate_pattern patternState "no_such_namespace"
        Pattern.invalid = Except.ok (0, patternState) :=
  ⟨C7_invalidate_pattern.1 patternState "database_queries"
     (fun k => strContains k "tables:") (by decide),
   C7_invalidate_pattern.2.1 patternState "database_queries" (by decide),
   C7_invalidate_pattern.2.2 patternState "no_such_namespace" Pattern.invalid (by decide)⟩

/-- Claim C8: on a known namespace, a `set` immediately followed by a `get`
of the same key within the TTL returns the stored value and records a hit;
and a `set` always leaves the key bound to the new value with the current
time as its timestamp (so overwriting an existing key replaces both the
value and the timestamp). -/
theorem C8_set_then_get (st : CacheState) (ns key : String) (v d : Value)
    (t t' : Nat) (hns : ns ∈ knownNamespaces) (httl : t' - t < ttlSettings ns) :
    (PlatformCacheManager.get (PlatformCacheManager.set st ns key v t).2 ns key d t').1 = v ∧
    (PlatformCacheManager.get (PlatformCacheManager.set st ns key v t).2 ns key d t').2.hits
      ns = (PlatformCacheManager.set st ns key v t).2.hits ns + 1 ∧
    lookupStore ((PlatformCacheManager.set st ns key v t).2.caches ns) key =
      some ⟨v, t⟩ := by
  have hl := set_lookup_self st ns key v t hns
  have hget := get_hit (PlatformCacheManager.set st ns key v t).2 ns key d t' ⟨v, t⟩ hns hl
    (by simpa using httl)
  refine ⟨?_, ?_, hl⟩
  · rw [hget]
  · rw [hget]
    simp [updF_apply_self]

/-- Witness for C8 at a concrete set-then-get. -/
theorem C8_set_then_get_witness :
    (PlatformCacheManager.get (PlatformCacheManager.set initState "api_responses" "k"
      (Value.scalar (Scalar.sstr "payload")) 10).2 "api_responses" "k"
      (Value.scalar Scalar.snone) 40).1 = Value.scalar (Scalar.sstr "payload") ∧
    (PlatformCacheManager.get (PlatformCacheManager.set initState "api_responses" "k"
      (Value.scalar (Scalar.sstr "payload")) 10).2 "api_responses" "k"
      (Value.scalar Scalar.snone) 40).2.hits "api_responses" =
      (PlatformCacheManager.set initState "api_responses" "k"
        (Value.scalar (Scalar.sstr "payload")) 10).2.hits "api_responses" + 1 ∧
    lookupStore ((PlatformCacheManager.set initState "api_responses" "k"
      (Value.scalar (Scalar.sstr "payload")) 10).2.caches "api_responses") "k" =
      some ⟨Value.scalar (Scalar.sstr "payload"), 10⟩ :=
  C8_set_then_get initState "api_responses" "k" (Value.scalar (Scalar.sstr "payload"))
    (Value.scalar Scalar.snone) 10 40 (by decide) (by decide)

/-- Claim C9: a `set` on a known namespace at capacity evicts an oldest
entry even when the written key is already present: with the oldest entry a
different key, the eviction counter is bumped, the unrelated oldest entry is
removed, the key is overwritten in place, and the namespace ends up one
entry below capacity. -/
theorem C9_overwrite_still_evicts (st : CacheState) (ns key : String) (v : Value)
    (now : Nat) (k₀ : String) (e₀ : Entry)
    (hns : ns ∈ knownNamespaces)
    (hlen : (st.caches ns).length = maxSizes ns)
    (hold : oldest (st.caches ns) = some (k₀, e₀))
    (hpresent : (lookupStore (st.caches ns) key).isSome)
    (hne : k₀ ≠ key) :
    (PlatformCacheManager.set st ns key v now).2.evictions ns = st.evictions ns + 1 ∧
    (PlatformCacheManager.set st ns key v now).2.caches ns =
      insertEntry (eraseKey (st.caches ns) k₀) key ⟨v, now⟩ ∧
    ((PlatformCacheManager.set st ns key v now).2.caches ns).length + 1 = maxSizes ns ∧
    lookupStore ((PlatformCacheManager.set st ns key v now).2.caches ns) key =
      some ⟨v, now⟩ := by
  have hcap : maxSizes ns ≤ (st.caches ns).length := le_of_eq hlen.symm
  have hcaches : (PlatformCacheManager.set st ns key v now).2.caches ns =
      insertEntry (eraseKey (st.caches ns) k₀) key ⟨v, now⟩ := by
    simp only [PlatformCacheManager.set, if_pos hns, if_pos hcap, hold]
    simp [updF]
  refine ⟨?_, hcaches, ?_, ?_⟩
  · simp only [PlatformCacheManager.set, if_pos hns, if_pos hcap, hold]
    simp [updF]
  · rw [hcaches]
    have h1 : (lookupStore (eraseKey (st.caches ns) k₀) key).isSome := by
      rw [lookup_eraseKey_ne _ _ _ (Ne.symm hne)]
      exact hpresent
    rw [length_insertEntry_of_present _ _ _ h1]
    have h2 := length_eraseKey_of_present (st.caches ns) k₀
      (lookup_isSome_of_mem _ _ _ (oldest_mem _ _ hold))
    omega
  · exact set_lookup_self st ns key v now hns

/-- A `configuration` namespace at capacity whose key `"7"` is present but
whose oldest entry is key `"0"`. -/
def capState2 : CacheState :=
  { initState with caches := updF initState.caches "configuration" capStore }

set_option maxRecDepth 8000 in
/-- Witness for C9: overwriting key `"7"` at capacity still evicts key `"0"`
and leaves the namespace one below capacity. -/
theorem C9_overwrite_still_evicts_witness :
    (PlatformCacheManager.set capState2 "configuration" "7"
      (Value.scalar Scalar.snone) 100).2.evictions "configuration" =
      capState2.evictions "configuration" + 1 ∧
    (PlatformCacheManager.set capState2 "configuration" "7"
      (Value.scalar Scalar.snone) 100).2.caches "configuration" =
      insertEntry (eraseKey (capState2.caches "configuration") "0") "7"
        ⟨Value.scalar Scalar.snone, 100⟩ ∧
    ((PlatformCacheManager.set capState2 "configuration" "7"
      (Value.scalar Scalar.snone) 100).2.caches "configuration").length + 1 =
      maxSizes "configuration" ∧
    lookupStore ((PlatformCacheManager.set capState2 "configuration" "7"
      (Value.scalar Scalar.snone) 100).2.caches "configuration") "7" =
      some ⟨Value.scalar Scalar.snone, 100⟩ :=
  C9_overwrite_still_evicts capState2 "configuration" "7" (Value.scalar Scalar.snone) 100
    "0" ⟨Value.scalar (Scalar.sint 0), 0⟩ (by decide) (by decide) (by decide) (by decide)
    (by decide)

/-- Claim C10: `get` returns a bare value with no separate found flag, so a
stored `None` is indistinguishable from a miss: after storing `None`, a
`get` within the TTL returns `None` — exactly the miss default — while still
recording a hit; consequently the `cached` decorator's wrapper treats the
cached `None` as absent, re-executes the wrapped function, and re-stores its
result. -/
theorem C10_cached_none_reexecutes (st : CacheState) (ns key : String)
    (fres : Value) (t t' : Nat)
    (hns : ns ∈ knownNamespaces) (httl : t' - t < ttlSettings ns) :
    (PlatformCacheManager.get (PlatformCacheManager.set st ns key
      (Value.scalar Scalar.snone) t).2 ns key (Value.scalar Scalar.snone) t').1 =
      Value.scalar Scalar.snone ∧
    (PlatformCacheManager.get (PlatformCacheManager.set st ns key
      (Value.scalar Scalar.snone) t).2 ns key (Value.scalar Scalar.snone) t').2.hits ns =
      (PlatformCacheManager.set st ns key (Value.scalar Scalar.snone) t).2.hits ns + 1 ∧
    (cached (PlatformCacheManager.set st ns key (Value.scalar Scalar.snone) t).2
      ns key fres t').2.2 = true ∧
    lookupStore (((cached (PlatformCacheManager.set st ns key
      (Value.scalar Scalar.snone) t).2 ns key fres t').2.1).caches ns) key =
      some ⟨fres, t'⟩ := by
  have hl := set_lookup_self st ns key (Value.scalar Scalar.snone) t hns
  have hget := get_hit (PlatformCacheManager.set st ns key (Value.scalar Scalar.snone) t).2
    ns key (Value.scalar Scalar.snone) t' ⟨Value.scalar Scalar.snone, t⟩ hns hl
    (by simpa using httl)
  refine ⟨?_, ?_, ?_, ?_⟩
  · rw [hget]
  · rw [hget]
    simp [updF_apply_self]
  · simp only [cached, hget]
    rfl
  · simp only [cached, hget]
    simp only [Value.isNone, if_pos]
    exact set_lookup_self _ ns key fres t' hns

/-- Witness for C10 at a concrete store-None-then-call. -/
theorem C10_cached_none_reexecutes_witness :
    (PlatformCacheManager.get (PlatformCacheManager.set initState "user_data" "k"
      (Value.scalar Scalar.snone) 3).2 "user_data" "k" (Value.scalar Scalar.snone) 6).1 =
      Value.scalar Scalar.snone ∧
    (PlatformCacheManager.get (PlatformCacheManager.set initState "user_data" "k"
      (Value.scalar Scalar.snone) 3).2 "user_data" "k" (Value.scalar Scalar.snone)
      6).2.hits "user_data" =
      (PlatformCacheManager.set initState "user_data" "k"
        (Value.scalar Scalar.snone) 3).2.hits "user_data" + 1 ∧
    (cached (PlatformCacheManager.set initState "user_data" "k"
      (Value.scalar Scalar.snone) 3).2 "user_data" "k"
      (Value.scalar (Scalar.sint 42)) 6).2.2 = true ∧
    lookupStore (((cached (PlatformCacheManager.set initState "user_data" "k"
      (Value.scalar Scalar.snone) 3).2 "user_data" "k"
      (Value.scalar (Scalar.sint 42)) 6).2.1).caches "user_data") "k" =
      some ⟨Value.scalar (Scalar.sint 42), 6⟩ :=
  C10_cached_none_reexecutes initState "user_data" "k" (Value.scalar (Scalar.sint 42)) 3 6
    (by decide) (by decide)

/-! ### C4: cache invalidation on connect -/

theorem invalidateStep_valid (s : CacheState) (ns : String) (f : String → Bool)
    (h : ns ∈ knownNamespaces) :
    invalidateStep (Pattern.valid f) s ns =
      { s with caches := updF s.caches ns ((s.caches ns).filter (fun q => !(f q.1))) } := by
  simp only [invalidateStep, invalidate_pattern_known s ns f h]

theorem connect_caches (st : CacheState) (db n : String) :
    ((DatabaseManager.connect st db true).2).caches n =
      (if n ∈ connectTargets
       then (st.caches n).filter (fun q => !(strContains q.1 (":" ++ db)))
       else st.caches n) := by
  have hconn : (DatabaseManager.connect st db true).2 =
      invalidateStep (Pattern.valid (fun key => strContains key (":" ++ db)))
        (invalidateStep (Pattern.valid (fun key => strContains key (":" ++ db)))
          (invalidateStep (Pattern.valid (fun key => strContains key (":" ++ db)))
            st "database_queries")
          "api_responses")
        "table_metadata" := by
    simp [DatabaseManager.connect, connectTargets, targetPattern]
  rw [hconn,
    invalidateStep_valid _ "database_queries" _ (by decide),
    invalidateStep_valid _ "api_responses" _ (by decide),
    invalidateStep_valid _ "table_metadata" _ (by decide)]
  by_cases h1 : n = "database_queries"
  · subst h1; simp [updF, connectTargets]
  by_cases h2 : n = "api_responses"
  · subst h2; simp [updF, connectTargets]
  by_cases h3 : n = "table_metadata"
  · subst h3; simp [updF, connectTargets]
  simp [updF, connectTargets, h1, h2, h3]

/-- The cache state for the C4 counterexample: the previous target is
`olddb`, whose keys are still cached, and the new target is `newdb`. -/
def c4State : CacheState :=
  { initState with
    caches := updF initState.caches "database_queries"
      [("tables:olddb", ⟨Value.scalar (Scalar.sint 1), 0⟩),
       ("tables:newdb", ⟨Value.scalar (Scalar.sint 2), 0⟩)] }

/-- Counterexample to claim C4 as stated: after a successful reconnection
from `olddb` to `newdb`, `connect` only invalidates with the pattern
`.*:newdb`, so the key `tables:olddb` — which matches the *previous* target
and which the claim says is removed — is still present in
`database_queries` (while `tables:newdb` was removed, showing the
invalidation did run). -/
theorem C4_target_change_counterexample :
    lookupStore (((DatabaseManager.connect c4State "newdb" true).2).caches
      "database_queries") "tables:olddb" = some ⟨Value.scalar (Scalar.sint 1), 0⟩ ∧
    lookupStore (((DatabaseManager.connect c4State "newdb" true).2).caches
      "database_queries") "tables:newdb" = Option.none := by
  constructor <;> rfl

/-- Claim C4, amended to what the code does: when the connection attempt
fails, no cache entry is invalidated (the state is untouched); when it
succeeds, in each of the three database-scoped namespaces exactly the keys
matching the *new* target's pattern `.*:<db>` are removed — keys matching
only the previous target survive — and all other namespaces are untouched. -/
theorem C4_target_change_amended :
    (∀ (st : CacheState) (db : String), DatabaseManager.connect st db false = (false, st))
    ∧ (∀ (st : CacheState) (db ns : String), ns ∈ connectTargets →
        ((DatabaseManager.connect st db true).2).caches ns =
          (st.caches ns).filter (fun q => !(strContains q.1 (":" ++ db))) ∧
        (∀ key, strContains key (":" ++ db) = true →
          lookupStore (((DatabaseManager.connect st db true).2).caches ns) key =
            Option.none) ∧
        (∀ key, strContains key (":" ++ db) = false →
          lookupStore (((DatabaseManager.connect st db true).2).caches ns) key =
            lookupStore (st.caches ns) key))
    ∧ (∀ (st : CacheState) (db ns : String), ns ∉ connectTargets →
        ((DatabaseManager.connect st db true).2).caches ns = st.caches ns) := by
  refine ⟨?_, ?_, ?_⟩
  · intro st db
    simp [DatabaseManager.connect]
  · intro st db ns hns
    have hc := connect_caches st db ns
    rw [if_pos hns] at hc
    refine ⟨hc, ?_, ?_⟩
    · intro key hk
      rw [hc]
      exact lookup_filter_matching (fun k => strContains k (":" ++ db)) _ key hk
    · intro key hk
      rw [hc]
      exact lookup_filter_not_matching (fun k => strContains k (":" ++ db)) _ key hk
  · intro st db ns hns
    have hc := connect_caches st db ns
    rwa [if_neg hns] at hc

/-- Witness for the amended C4 at concrete inputs. -/
theorem C4_target_change_amended_witness :
    DatabaseManager.connect c4State "newdb" false = (false, c4State) ∧
    (((DatabaseManager.connect c4State "newdb" true).2).caches "database_queries" =
      (c4State.caches "database_queries").filter
        (fun q => !(strContains q.1 (":" ++ "newdb"))) ∧
     (∀ key, strContains key (":" ++ "newdb") = true →
        lookupStore (((DatabaseManager.connect c4State "newdb" true).2).caches
          "database_queries") key = Option.none) ∧
     (∀ key, strContains key (":" ++ "newdb") = false →
        lookupStore (((DatabaseManager.connect c4State "newdb" true).2).caches
          "database_queries") key =
          lookupStore (c4State.caches "database_queries") key)) ∧
    ((DatabaseManager.connect c4State "newdb" true).2).caches "user_data" =
      c4State.caches "user_data" :=
  ⟨C4_target_change_amended.1 c4State "newdb",
   C4_target_change_amended.2.1 c4State "newdb" "database_queries" (by decide),
   C4_target_change_amended.2.2 c4State "newdb" "user_data" (by decide)⟩
